import Mathlib

/-
  Verification of the illutix-tundra ingestion service.

  Shallow embedding of the parts of the code relevant to the frozen claims:
  - app/services/file_parser.py   (FileParser: downloads, CSV/JSON/GeoJSON parsing,
                                   GeoJSON flattening, preview/truncation metadata)
  - app/services/file_converter.py (FileConverter: download limits, schema generation)
  - app/services/sql_parser.py    (SqlParser: LIMIT injection, preview limit selection)
  - app/services/api_parser.py    (ApiParser: preview truncation)

  JSON values (as produced by Python's json.load) are modelled by the inductive
  type JVal; Python dicts by association lists with first-match lookup and
  insert-or-overwrite assignment; fallible Python code by Except.  JSON numbers
  are carried as integers: no claim inspects a numeric value beyond its tag and
  small integer literals.
-/

namespace Tundra

/-- A JSON value as decoded by Python's json.load.  Python booleans are a
distinct constructor from numbers, mirroring the distinct runtime type. -/
inductive JVal where
  | null
  | bool (b : Bool)
  | num (n : Int)
  | str (s : List Char)
  | arr (xs : List JVal)
  | obj (fields : List (List Char × JVal))
deriving Repr

/-- A Python dict whose keys are strings, as an association list.  Dicts built
by the code under study never carry duplicate keys. -/
abbrev JObj := List (List Char × JVal)

/-- Python truthiness of a JSON value (None, False, 0, "", [], {} are falsy). -/
def truthy : JVal → Bool
  | .null => false
  | .bool b => b
  | .num n => n != 0
  | .str s => !s.isEmpty
  | .arr xs => !xs.isEmpty
  | .obj fs => !fs.isEmpty

/-- Python `isinstance(x, (int, float))`.  Python's bool is a subclass of int,
so JSON booleans satisfy this test. -/
def pyNumeric : JVal → Bool
  | .num _ => true
  | .bool _ => true
  | _ => false

/-- Python `d.get(k)`: first-match lookup in an association list. -/
def dget : JObj → List Char → Option JVal
  | [], _ => none
  | (k, v) :: rest, key => if k = key then some v else dget rest key

/-- Python `d.get(k, default)`. -/
def dgetD (d : JObj) (key : List Char) (dflt : JVal) : JVal :=
  (dget d key).getD dflt

/-- Python `d[k] = v` on a dict: overwrite the value in place if the key is
present (keeping its position), otherwise append the new binding. -/
def dinsert : JObj → List Char → JVal → JObj
  | [], key, v => [(key, v)]
  | (k, w) :: rest, key, v =>
      if k = key then (k, v) :: rest else (k, w) :: dinsert rest key v

/-- Sequential dict assignment of all bindings of `props`, as performed by the
`**properties` expansion inside a dict literal. -/
def dmerge (d : JObj) (props : JObj) : JObj :=
  props.foldl (fun acc kv => dinsert acc kv.1 kv.2) d

/-- Python `v == "s"` for a JSON value and a string literal: true exactly when
`v` is that string (equality across types is False, never an error). -/
def isStr (v : JVal) (s : List Char) : Bool :=
  match v with
  | .str t => t = s
  | _ => false

/-- String keys and literals used by the GeoJSON code. -/
def typeKey : List Char := "type".toList
def featuresKey : List Char := "features".toList
def propertiesKey : List Char := "properties".toList
def geometryKey : List Char := "geometry".toList
def coordinatesKey : List Char := "coordinates".toList
def featureIdKey : List Char := "feature_id".toList
def nameKey : List Char := "name".toList
def nameKeyUpper : List Char := "NAME".toList
def geometryTypeKey : List Char := "geometry_type".toList
def areaTypeKey : List Char := "area_type".toList
def coordinateCountKey : List Char := "coordinate_count".toList
def hasInteriorRingsKey : List Char := "has_interior_rings".toList
def hiddenGeometryKey : List Char := "_geometry".toList
def featureIndexKey : List Char := "_feature_index".toList
def featureCollectionStr : List Char := "FeatureCollection".toList

/-- Decimal digit character, as produced by Python's str() on 0..9. -/
def digitChar : Nat → Char
  | 0 => '0' | 1 => '1' | 2 => '2' | 3 => '3' | 4 => '4'
  | 5 => '5' | 6 => '6' | 7 => '7' | 8 => '8' | _ => '9'

/-- Decimal rendering of a natural number, as Python's str()/f-string. -/
def natDigits (n : Nat) : List Char :=
  if _h : n < 10 then [digitChar n]
  else natDigits (n / 10) ++ [digitChar (n % 10)]
decreasing_by exact Nat.div_lt_self (by omega) (by omega)

/-- Python f-string `f"Feature {i + 1}"`. -/
def featureLabel (i : Nat) : List Char := "Feature ".toList ++ natDigits (i + 1)

/-- Exceptions raised by the modelled Python code and caught by the callers. -/
inductive PyErr where
  | invalidGeoJSON   -- ValueError("Invalid GeoJSON: Expected FeatureCollection")
  | attributeError   -- .get called on a value that is not a dict
  | typeError        -- iterating or taking len() of an unsupported value
deriving DecidableEq, Repr

/-- `FileParser._classify_geo_feature`: the fixed mapping applied to the raw
value of `geometry.get("type")` (mapping.get returns the default for any
non-matching value, including None). -/
def classify_geo_feature (t : JVal) : List Char :=
  if isStr t "Point".toList then "Location".toList
  else if isStr t "LineString".toList then "Route/Boundary".toList
  else if isStr t "MultiLineString".toList then "Route/Boundary".toList
  else if isStr t "Polygon".toList then "Area/Region".toList
  else if isStr t "MultiPolygon".toList then "Area/Region".toList
  else "Geographic Feature".toList

mutual
/-- `count_recursive` inside `FileParser._count_coordinates` (the converter's
copy in FileConverter is verbatim identical): not a list counts 0, a list of
exactly two values passing `isinstance(x, (int, float))` counts 1, any other
list is summed elementwise. -/
def countRecursive : JVal → Nat
  | .arr coords =>
      if coords.length = 2 && coords.all pyNumeric then 1
      else countListRec coords
  | _ => 0
termination_by structural v => v
/-- Elementwise sum in `count_recursive` (`sum(count_recursive(item) ...)`). -/
def countListRec : List JVal → Nat
  | [] => 0
  | x :: xs => countRecursive x + countListRec xs
termination_by structural xs => xs
end

/-- `FileParser._count_coordinates`: 0 when the geometry dict has no
"coordinates" key (an empty geometry dict has none), else the recursive
count of its coordinates entry. -/
def count_coordinates (geometry : JObj) : Nat :=
  match dget geometry coordinatesKey with
  | none => 0
  | some c => countRecursive c

/-- Python `len(v)`: defined for strings, lists and dicts; TypeError otherwise. -/
def pyLen : JVal → Except PyErr Nat
  | .str s => .ok s.length
  | .arr xs => .ok xs.length
  | .obj fs => .ok fs.length
  | _ => .error .typeError

/-- `FileParser._has_interior_rings`: geometry type is "Polygon" and
`len(geometry.get("coordinates", []))` exceeds 1.  The `and` short-circuits,
so len (and its possible TypeError) is only reached for Polygons. -/
def has_interior_rings (geometry : JObj) : Except PyErr Bool :=
  if isStr (dgetD geometry typeKey .null) "Polygon".toList then
    match pyLen (dgetD geometry coordinatesKey (.arr [])) with
    | .error e => .error e
    | .ok n => .ok (decide (n > 1))
  else .ok false

/-- Python `a or b` on JSON values: `a` when truthy, else `b`. -/
def pyOr (a b : JVal) : JVal := if truthy a then a else b

/-- The `"name"` entry of the flattened row:
`properties.get("name") or properties.get("NAME") or f"Feature {i + 1}"`. -/
def feature_name (props : JObj) (i : Nat) : JVal :=
  pyOr (dgetD props nameKey .null)
    (pyOr (dgetD props nameKeyUpper .null) (.str (featureLabel i)))

/-- Require a Python dict; `.get` on anything else raises AttributeError. -/
def asDict : JVal → Except PyErr JObj
  | .obj fs => .ok fs
  | _ => .error .attributeError

/-- One row of `FileParser._process_geojson_features`: the dict literal
`{"feature_id": i+1, "name": ..., "geometry_type": ..., "area_type": ...,
**properties, "coordinate_count": ..., "has_interior_rings": ...,
"_geometry": geometry, "_feature_index": i}` evaluated left to right with
dict-assignment semantics: `**properties` overwrites the four entries before
it on a key collision, while the four entries after it overwrite properties. -/
def build_row (i : Nat) (props geometry : JObj) : Except PyErr JObj :=
  match has_interior_rings geometry with
  | .error e => .error e
  | .ok hir =>
      .ok (dinsert (dinsert (dinsert (dinsert
            (dmerge
              [(featureIdKey, .num (Int.ofNat (i + 1))),
               (nameKey, feature_name props i),
               (geometryTypeKey, dgetD geometry typeKey (.str "Unknown".toList)),
               (areaTypeKey, .str (classify_geo_feature (dgetD geometry typeKey .null)))]
              props)
            coordinateCountKey (.num (Int.ofNat (count_coordinates geometry))))
            hasInteriorRingsKey (.bool hir))
            hiddenGeometryKey (.obj geometry))
            featureIndexKey (.num (Int.ofNat i)))

/-- Flattening of the feature found at input index `i`: `feature.get` requires
a dict; `properties`/`geometry` default to `{}` when absent but raise when
present and not a dict (`.get` on e.g. None raises AttributeError). -/
def row_of_feature (i : Nat) (feature : JVal) : Except PyErr JObj :=
  match asDict feature with
  | .error e => .error e
  | .ok fd =>
      match asDict (dgetD fd propertiesKey (.obj [])) with
      | .error e => .error e
      | .ok props =>
          match asDict (dgetD fd geometryKey (.obj [])) with
          | .error e => .error e
          | .ok geometry => build_row i props geometry

/-- The feature loop of `FileParser._process_geojson_features`: in preview
mode it breaks as soon as the running index reaches `limit`. -/
def process_features_from (preview : Bool) (limit : Nat) :
    List JVal → Nat → Except PyErr (List JObj)
  | [], _ => .ok []
  | f :: rest, i =>
      if preview ∧ i ≥ limit then .ok []
      else
        match row_of_feature i f with
        | .error e => .error e
        | .ok row =>
            match process_features_from preview limit rest (i + 1) with
            | .error e => .error e
            | .ok rows => .ok (row :: rows)

/-- `FileParser._process_geojson_features` over a decoded top-level dict:
requires `type == "FeatureCollection"`, takes `features` (default `[]`,
iterating anything that is not a list fails), and flattens each feature in
input order starting at index 0. -/
def process_geojson_features (geoData : JObj) (preview : Bool) (limit : Nat) :
    Except PyErr (List JObj) :=
  if !(isStr (dgetD geoData typeKey .null) featureCollectionStr) then
    .error .invalidGeoJSON
  else
    match dgetD geoData featuresKey (.arr []) with
    | .arr features => process_features_from preview limit features 0
    | _ => .error .typeError

/-! ### Resource-bounded downloads -/

/-- Failures of the two downloaders (both raise ValueError, caught upstream). -/
inductive DlErr where
  | payloadTooLarge
deriving DecidableEq, Repr

/-- `FileConverter.MAX_DOWNLOAD_SIZE` (500 MB). -/
def MAX_DOWNLOAD_SIZE : Nat := 500 * 1024 * 1024

/-- The chunk loop of `FileParser._download_controlled`: accumulate chunks;
as soon as the cumulative size exceeds `maxBytes`, write the first
`remaining = maxBytes - previous_total` bytes of the offending chunk and
break out of the loop, returning the truncated content without error. -/
def download_controlled_go (maxBytes : Nat) :
    List (List Nat) → List Nat → Nat → List Nat
  | [], acc, _ => acc
  | c :: rest, acc, count =>
      if count + c.length > maxBytes then acc ++ c.take (maxBytes - count)
      else download_controlled_go maxBytes rest (acc ++ c) (count + c.length)

/-- `FileParser._download_controlled` over an abstract HTTP source given by an
optional declared content-length and the streamed byte chunks: the declared
size is pre-checked against the budget before any chunk is consumed; the
streaming loop then never errors. -/
def download_controlled (maxBytes : Nat) (contentLength : Option Nat)
    (chunks : List (List Nat)) : Except DlErr (List Nat) :=
  if (match contentLength with
      | some n => decide (n > maxBytes)
      | none => false) then
    .error .payloadTooLarge
  else .ok (download_controlled_go maxBytes chunks [] 0)

/-- The chunk loop of `FileConverter._download_file`: accumulate chunks and
raise as soon as the accumulated content exceeds MAX_DOWNLOAD_SIZE. -/
def download_file_go : List (List Nat) → List Nat → Except DlErr (List Nat)
  | [], content => .ok content
  | c :: rest, content =>
      if (content ++ c).length > MAX_DOWNLOAD_SIZE then .error .payloadTooLarge
      else download_file_go rest (content ++ c)

/-- `FileConverter._download_file`: declared content-length pre-check against
the fixed 500 MB limit, then the accumulating chunk loop. -/
def download_file (contentLength : Option Nat) (chunks : List (List Nat)) :
    Except DlErr (List Nat) :=
  if (match contentLength with
      | some n => decide (n > MAX_DOWNLOAD_SIZE)
      | none => false) then
    .error .payloadTooLarge
  else download_file_go chunks []

/-- Total streamed size of a source, for stating size-budget properties. -/
def chunksSize (chunks : List (List Nat)) : Nat :=
  (chunks.map List.length).sum

/-! ### Preview / truncation logic of the four parse paths

The Polars layer (file decoding, type inference) is abstracted: a source is
its materialized list of rows, and `head`/slicing become `List.take`.  The
limit arithmetic and the metadata flags are translated verbatim. -/

/-- Rows returned by `FileParser._parse_csv_native`: `query.head(limit)` when
`preview`, `query.head(limit)` when `limit` is truthy and positive, else all. -/
def parse_csv_rows {α : Type} (src : List α) (preview : Bool) (limit : Nat) :
    List α :=
  if preview then src.take limit
  else if limit ≠ 0 ∧ limit > 0 then src.take limit
  else src

/-- `was_truncated` of the CSV path:
`preview or (limit and len(df) == limit)`. -/
def parse_csv_truncated {α : Type} (src : List α) (preview : Bool)
    (limit : Nat) : Bool :=
  preview || (limit != 0 && (parse_csv_rows src preview limit).length == limit)

/-- Rows returned by `FileParser._parse_json_native`: truncated to `limit`
only when `preview` and the frame is strictly larger. -/
def parse_json_rows {α : Type} (src : List α) (preview : Bool) (limit : Nat) :
    List α :=
  if preview ∧ src.length > limit then src.take limit else src

/-- `was_truncated` of the JSON path: set exactly when the preview truncation
branch was taken. -/
def parse_json_truncated {α : Type} (src : List α) (preview : Bool)
    (limit : Nat) : Bool :=
  decide (preview ∧ src.length > limit)

/-- `FileParser.json_to_polars_via_temp`: the limit application on the frame
(`if preview and len(df) > limit: df = df.head(limit)`), shared by the SQL
and API paths. -/
def json_to_polars_via_temp {α : Type} (rows : List α) (preview : Bool)
    (limit : Nat) : List α :=
  if preview ∧ rows.length > limit then rows.take limit else rows

/-- `was_truncated` of `SqlParser.execute_query`:
`preview and len(df) == limit` on the already-limited frame. -/
def sql_truncated {α : Type} (rows : List α) (preview : Bool) (limit : Nat) :
    Bool :=
  preview && (json_to_polars_via_temp rows preview limit).length == limit

/-- Rows of `ApiParser.parse_api_data` after its own preview slice
(`target_data[:limit]`) followed by `json_to_polars_via_temp`. -/
def parse_api_rows {α : Type} (src : List α) (preview : Bool) (limit : Nat) :
    List α :=
  json_to_polars_via_temp
    (if preview ∧ src.length > limit then src.take limit else src)
    preview limit

/-- `was_truncated` of the API path: set exactly when the preview slice was
taken on the extracted array. -/
def parse_api_truncated {α : Type} (src : List α) (preview : Bool)
    (limit : Nat) : Bool :=
  decide (preview ∧ src.length > limit)

/-- `was_truncated` of `FileParser._parse_geojson_controlled`:
`preview and len(business_data) >= limit`. -/
def geojson_truncated (rows : List JObj) (preview : Bool) (limit : Nat) :
    Bool :=
  preview && decide (rows.length ≥ limit)

/-! ### Table columns, hidden-column filtering and schema -/

/-- Python `col.startswith('_')`. -/
def isHiddenKey (k : List Char) : Bool := k.head? = some '_'

/-- Column list of a Polars frame built from a list of dicts: the keys in
order of first appearance (rows built by the flattener share one key set). -/
def tableColumns (rows : List JObj) : List (List Char) :=
  rows.foldl
    (fun acc r =>
      r.foldl (fun acc' kv => if kv.1 ∈ acc' then acc' else acc' ++ [kv.1]) acc)
    []

/-- `df.to_dicts()`: every returned row carries every column of the frame
(missing keys padded with null). -/
def to_dicts (cols : List (List Char)) (rows : List JObj) : List JObj :=
  rows.map (fun r => cols.map (fun k => (k, dgetD r k .null)))

/-- The public column list of `FileParser._parse_geojson_controlled` metadata:
`[col for col in df.columns if not col.startswith('_')]`. -/
def geojson_public_columns (rows : List JObj) : List (List Char) :=
  (tableColumns rows).filter (fun k => !isHiddenKey k)

/-- The `column_count` of the same metadata:
`len([col for col in df.columns if not col.startswith('_')])`. -/
def geojson_public_column_count (rows : List JObj) : Nat :=
  ((tableColumns rows).filter (fun k => !isHiddenKey k)).length

/-- The keys of the `schema` map of the same metadata (the dict comprehension
zips columns with dtypes and keeps the non-hidden ones). -/
def geojson_schema_keys (rows : List JObj) : List (List Char) :=
  (tableColumns rows).filter (fun k => !isHiddenKey k)

/-- The `hidden_fields` entry of the same metadata. -/
def geojson_hidden_fields (rows : List JObj) : List (List Char) :=
  (tableColumns rows).filter (fun k => isHiddenKey k)

/-- The `columns` entry of `FileParser._parse_local_file_native` metadata:
`df.columns`, with no hidden-column filtering. -/
def parse_local_columns (rows : List JObj) : List (List Char) :=
  tableColumns rows

/-- The `column_count` entry of `FileParser._parse_local_file_native`
metadata: `len(df.columns)`, with no hidden-column filtering. -/
def parse_local_column_count (rows : List JObj) : Nat :=
  (tableColumns rows).length

/-- The field names produced by `FileConverter._generate_schema`: one field
per frame column, skipping columns that start with '_'. -/
def generate_schema_fields (cols : List (List Char)) : List (List Char) :=
  cols.filter (fun k => !isHiddenKey k)

/-! ### SQL limit injection -/

/-- Python whitespace stripped by str.strip() (the ASCII subset; SQL query
text contains no exotic Unicode spaces). -/
def isPySpace (c : Char) : Bool :=
  c = ' ' || c = '\t' || c = '\n' || c = '\x0d' || c = '\x0b' || c = '\x0c'

/-- Python `s.strip()`. -/
def pyStrip (s : List Char) : List Char :=
  ((s.dropWhile isPySpace).reverse.dropWhile isPySpace).reverse

/-- Python `s.lower()` (ASCII lowering; query text is ASCII). -/
def lowerStr (s : List Char) : List Char := s.map Char.toLower

/-- The token searched for by `_add_limit_to_query`: the characters of
"limit". -/
def limitTok : List Char := ['l', 'i', 'm', 'i', 't']

/-- Python substring membership `pat in s`. -/
def containsSub (s pat : List Char) : Bool :=
  match s with
  | [] => pat.isEmpty
  | _ :: rest => pat.isPrefixOf s || containsSub rest pat

/-- Number of positions of `s` at which `pat` occurs as a substring. -/
def countOcc (pat : List Char) : List Char → Nat
  | [] => if pat.isEmpty then 1 else 0
  | c :: rest => (if pat.isPrefixOf (c :: rest) then 1 else 0) + countOcc pat rest

/-- `SqlParser._add_limit_to_query`: return the query unchanged when the
stripped, lowercased text contains "limit"; otherwise append ` LIMIT {n}`
to the stripped text, before a trailing semicolon when present. -/
def add_limit_to_query (query : List Char) (limit : Nat) : List Char :=
  if containsSub (lowerStr (pyStrip query)) limitTok then query
  else if (pyStrip query).getLast? = some ';' then
    (pyStrip query).dropLast ++ " LIMIT ".toList ++ natDigits limit ++ [';']
  else pyStrip query ++ " LIMIT ".toList ++ natDigits limit

/-- The query-rewriting decision of `SqlParser.execute_query`:
`if preview: add(query, limit) elif query_limit: add(query, query_limit)`
(a query_limit of None or 0 is falsy and leaves the query unchanged). -/
def sql_final_query (query : List Char) (query_limit : Option Nat)
    (preview : Bool) (limit : Nat) : List Char :=
  if preview then add_limit_to_query query limit
  else
    match query_limit with
    | some ql => if ql ≠ 0 then add_limit_to_query query ql else query
    | none => query

/-! ### Spec-side counting definitions (for refinement comparison) -/

/-- A JSON number in the sense of the JSON data model (booleans excluded). -/
def isJNumber : JVal → Bool
  | .num _ => true
  | _ => false

mutual
/-- Modelled from the claim's words, for comparison with `countRecursive`:
"a list of exactly two numbers counts as one pair and anything that is not
a list counts as zero". -/
def claimPairCount : JVal → Nat
  | .arr coords =>
      if coords.length = 2 && coords.all isJNumber then 1
      else claimListCount coords
  | _ => 0
termination_by structural v => v
/-- Elementwise sum for `claimPairCount`. -/
def claimListCount : List JVal → Nat
  | [] => 0
  | x :: xs => claimPairCount x + claimListCount xs
termination_by structural xs => xs
end

/-- A value Python's `isinstance(x, (int, float))` accepts: a JSON number or
a JSON boolean (bool is a subclass of int). -/
def isNumberOrBool : JVal → Bool
  | .num _ => true
  | .bool _ => true
  | _ => false

mutual
/-- Modelled from the amended claim's words: "a list of exactly two numbers
or booleans counts as one pair and anything that is not a list counts as
zero". -/
def amendedPairCount : JVal → Nat
  | .arr coords =>
      if coords.length = 2 && coords.all isNumberOrBool then 1
      else amendedListCount coords
  | _ => 0
termination_by structural v => v
/-- Elementwise sum for `amendedPairCount`. -/
def amendedListCount : List JVal → Nat
  | [] => 0
  | x :: xs => amendedPairCount x + amendedListCount xs
termination_by structural xs => xs
end

/-! ### Depth truncation, for stating what a depth guard would mean -/

/-- Truncation of a JSON tree at depth `d`: everything at depth `d` is
replaced by null, so two values with equal truncations agree on all nodes
shallower than `d`.  A walk guarded at depth `d` could only depend on the
truncation. -/
def truncateJ : Nat → JVal → JVal
  | 0, _ => .null
  | d + 1, .arr xs => .arr (xs.map (truncateJ d))
  | _ + 1, v => v

/-- `d` singleton arrays nested around a core value. -/
def nestArr : Nat → JVal → JVal
  | 0, v => v
  | d + 1, v => .arr [nestArr d v]

/-! ### Concrete fixtures used by counterexamples and witnesses -/

/-- A Point geometry with one coordinate pair. -/
def exGeometry : JObj :=
  [(typeKey, .str "Point".toList), (coordinatesKey, .arr [.num 1, .num 2])]

/-- A feature whose properties carry their own "feature_id" entry. -/
def exFeature : JVal :=
  .obj [(propertiesKey, .obj [(featureIdKey, .num 99), (nameKey, .str "A".toList)]),
        (geometryKey, .obj exGeometry)]

/-- A FeatureCollection containing just `exFeature`. -/
def exGeoData : JObj :=
  [(typeKey, .str featureCollectionStr), (featuresKey, .arr [exFeature])]

/-- The row the flattener emits for `exFeature` at index 0: the feature_id
property has overridden the computed value 1. -/
def exRow : JObj :=
  [(featureIdKey, .num 99),
   (nameKey, .str "A".toList),
   (geometryTypeKey, .str "Point".toList),
   (areaTypeKey, .str "Location".toList),
   (coordinateCountKey, .num 1),
   (hasInteriorRingsKey, .bool false),
   (hiddenGeometryKey, .obj exGeometry),
   (featureIndexKey, .num 0)]

/-- Properties carrying only a "name" entry. -/
def exPropsName : JObj := [(nameKey, .str "X".toList)]

/-- The row built from `exPropsName` and `exGeometry` at index 0. -/
def exRowName : JObj :=
  [(featureIdKey, .num 1),
   (nameKey, .str "X".toList),
   (geometryTypeKey, .str "Point".toList),
   (areaTypeKey, .str "Location".toList),
   (coordinateCountKey, .num 1),
   (hasInteriorRingsKey, .bool false),
   (hiddenGeometryKey, .obj exGeometry),
   (featureIndexKey, .num 0)]

/-- A FeatureCollection with no features entry. -/
def exEmptyCollection : JObj := [(typeKey, .str featureCollectionStr)]

/-! ## Helper lemmas: downloads -/

/-- The parser's download loop never returns more than `maxBytes` bytes: on
overflow it truncates the offending chunk to the remaining budget. -/
theorem download_controlled_go_length (maxBytes : Nat) :
    ∀ (chunks : List (List Nat)) (acc : List Nat) (count : Nat),
      acc.length = count → count ≤ maxBytes →
      (download_controlled_go maxBytes chunks acc count).length ≤ maxBytes := by
  intro chunks
  induction chunks with
  | nil =>
      intro acc count h1 h2
      simpa [download_controlled_go, h1] using h2
  | cons c rest ih =>
      intro acc count h1 h2
      simp only [download_controlled_go]
      split
      · simp only [List.length_append, List.length_take, h1]
        omega
      · rename_i hle
        exact ih _ _ (by simp [h1]) (by omega)

/-- The converter's download loop raises once the accumulated content plus
the remaining stream exceeds the fixed limit. -/
theorem download_file_go_err :
    ∀ (chunks : List (List Nat)) (content : List Nat),
      content.length ≤ MAX_DOWNLOAD_SIZE →
      content.length + chunksSize chunks > MAX_DOWNLOAD_SIZE →
      download_file_go chunks content = .error .payloadTooLarge := by
  intro chunks
  induction chunks with
  | nil =>
      intro content h1 h2
      exfalso
      simp [chunksSize] at h2
      omega
  | cons c rest ih =>
      intro content h1 h2
      simp only [download_file_go]
      split
      · rfl
      · rename_i hle
        simp only [List.length_append] at hle
        apply ih
        · simp only [List.length_append]
          omega
        · simp only [chunksSize, List.map_cons, List.sum_cons] at h2
          simp only [chunksSize, List.length_append]
          omega

/-! ## C1 -/

/-- C1 (corrected).  Declared-size pre-checks fail with PayloadTooLarge before
any chunk is consumed, in both downloaders; on actual cumulative overflow the
converter's downloader fails, but the parser's `_download_controlled` instead
silently truncates the payload to at most the budget and returns it without
error (so a parser download that succeeds never exceeds the budget, but a
too-large source is not reported). -/
theorem C1_download_budget :
    (∀ (maxBytes n : Nat) (chunks : List (List Nat)), n > maxBytes →
        download_controlled maxBytes (some n) chunks = .error .payloadTooLarge) ∧
    (∀ (maxBytes : Nat) (contentLength : Option Nat) (chunks : List (List Nat))
        (res : List Nat),
        download_controlled maxBytes contentLength chunks = .ok res →
        res.length ≤ maxBytes) ∧
    (∀ (n : Nat) (chunks : List (List Nat)), n > MAX_DOWNLOAD_SIZE →
        download_file (some n) chunks = .error .payloadTooLarge) ∧
    (∀ (contentLength : Option Nat) (chunks : List (List Nat)),
        chunksSize chunks > MAX_DOWNLOAD_SIZE →
        download_file contentLength chunks = .error .payloadTooLarge) := by
  refine ⟨?_, ?_, ?_, ?_⟩
  · intro maxBytes n chunks h
    simp [download_controlled, h]
  · intro maxBytes contentLength chunks res h
    unfold download_controlled at h
    split at h
    · simp at h
    · simp only [Except.ok.injEq] at h
      subst h
      exact download_controlled_go_length maxBytes chunks [] 0 rfl (Nat.zero_le _)
  · intro n chunks h
    simp [download_file, h]
  · intro contentLength chunks h
    unfold download_file
    split
    · rfl
    · exact download_file_go_err chunks [] (by simp) (by simpa using h)

/-- Witness for C1 at concrete inputs. -/
theorem C1_download_budget_witness :
    download_controlled 2 (some 3) [[0]] = .error .payloadTooLarge ∧
    ([0, 0] : List Nat).length ≤ 2 ∧
    download_file (some (MAX_DOWNLOAD_SIZE + 1)) [] = .error .payloadTooLarge ∧
    download_file none [List.replicate (MAX_DOWNLOAD_SIZE + 1) 0]
      = .error .payloadTooLarge :=
  ⟨C1_download_budget.1 2 3 [[0]] (by omega),
   C1_download_budget.2.1 2 none [[0, 0, 0]] [0, 0] rfl,
   C1_download_budget.2.2.1 (MAX_DOWNLOAD_SIZE + 1) [] (by omega),
   C1_download_budget.2.2.2 none [List.replicate (MAX_DOWNLOAD_SIZE + 1) 0]
     (by simp only [chunksSize, List.map_cons, List.map_nil, List.sum_cons,
           List.sum_nil, List.length_replicate]
         omega)⟩

/-- Counterexample to C1 as stated: a source with no declared size streaming
3 bytes against a budget of 2 does not fail; `_download_controlled` returns
the first 2 bytes as a successful, silently truncated payload. -/
theorem C1_counterexample :
    chunksSize [[0, 0, 0]] = 3 ∧ 3 > 2 ∧
    download_controlled 2 none [[0, 0, 0]] = .ok [0, 0] :=
  ⟨rfl, by omega, rfl⟩

/-! ## C10 -/

/-- C10 (confirmed).  With preview=true the injected bound is the preview
limit and any caller-supplied query_limit is ignored; query_limit is only
injected when preview=false (and only when truthy: None and 0 leave the
query unchanged). -/
theorem C10_sql_limit_choice (query : List Char) (query_limit : Option Nat)
    (limit : Nat) :
    sql_final_query query query_limit true limit = add_limit_to_query query limit ∧
    sql_final_query query none false limit = query ∧
    (∀ ql : Nat, ql ≠ 0 →
        sql_final_query query (some ql) false limit = add_limit_to_query query ql) ∧
    sql_final_query query (some 0) false limit = query := by
  refine ⟨rfl, rfl, ?_, rfl⟩
  intro ql h
  simp [sql_final_query, h]

/-- Witness for C10 at concrete inputs. -/
theorem C10_sql_limit_choice_witness :
    sql_final_query "select 1".toList (some 5) true 3
      = add_limit_to_query "select 1".toList 3 ∧
    sql_final_query "select 1".toList (some 5) false 3
      = add_limit_to_query "select 1".toList 5 :=
  ⟨(C10_sql_limit_choice "select 1".toList (some 5) 3).1,
   (C10_sql_limit_choice "select 1".toList (some 5) 3).2.2.1 5 (by omega)⟩

/-! ## C5 -/

/-- In non-preview mode the feature loop processes every feature. -/
theorem process_features_from_all (limit : Nat) :
    ∀ (fs : List JVal) (i : Nat) (rows : List JObj),
      process_features_from false limit fs i = .ok rows →
      rows.length = fs.length := by
  intro fs
  induction fs with
  | nil =>
      intro i rows h
      simp only [process_features_from, Except.ok.injEq] at h
      simp [← h]
  | cons f rest ih =>
      intro i rows h
      rw [process_features_from, if_neg (by simp)] at h
      split at h
      · simp at h
      · split at h
        · simp at h
        · rename_i rows' hrows'
          simp only [Except.ok.injEq] at h
          subst h
          simp [ih (i + 1) rows' hrows']

/-- C5 (corrected).  In non-preview mode only the CSV/TSV path caps the
returned rows at `limit`; the JSON, SQL and API paths return the source
unchanged, and the GeoJSON flattener processes every feature. -/
theorem C5_nonpreview_limit :
    (∀ (α : Type) (src : List α) (limit : Nat), 0 < limit →
        (parse_csv_rows src false limit).length ≤ limit) ∧
    (∀ (α : Type) (src : List α) (limit : Nat),
        parse_json_rows src false limit = src) ∧
    (∀ (α : Type) (src : List α) (limit : Nat),
        json_to_polars_via_temp src false limit = src) ∧
    (∀ (α : Type) (src : List α) (limit : Nat),
        parse_api_rows src false limit = src) ∧
    (∀ (g : JObj) (limit : Nat) (rows : List JObj) (features : List JVal),
        process_geojson_features g false limit = .ok rows →
        dgetD g featuresKey (.arr []) = .arr features →
        rows.length = features.length) := by
  refine ⟨?_, ?_, ?_, ?_, ?_⟩
  · intro α src limit h
    simp only [parse_csv_rows, if_false, Bool.false_eq_true]
    split
    · simp only [List.length_take]
      omega
    · omega
  · intro α src limit
    simp [parse_json_rows]
  · intro α src limit
    simp [json_to_polars_via_temp]
  · intro α src limit
    simp [parse_api_rows, json_to_polars_via_temp]
  · intro g limit rows features h hf
    rw [process_geojson_features] at h
    split at h
    · simp at h
    · rw [hf] at h
      exact process_features_from_all limit features 0 rows h

/-- Witness for C5 at concrete inputs. -/
theorem C5_nonpreview_limit_witness :
    (parse_csv_rows [1, 2, 3] false 2).length ≤ 2 ∧
    parse_json_rows [1, 2, 3] false 2 = [1, 2, 3] ∧
    ([exRow] : List JObj).length = ([exFeature] : List JVal).length :=
  ⟨C5_nonpreview_limit.1 Nat [1, 2, 3] 2 (by omega),
   C5_nonpreview_limit.2.1 Nat [1, 2, 3] 2,
   C5_nonpreview_limit.2.2.2.2 exGeoData 1000 [exRow] [exFeature] rfl rfl⟩

/-- Counterexample to C5 as stated: the JSON path with 3 source rows and
limit 2 in non-preview mode returns all 3 rows, exceeding the limit. -/
theorem C5_counterexample :
    parse_json_rows [1, 2, 3] false 2 = [1, 2, 3] ∧
    ([1, 2, 3] : List Nat).length = 3 ∧ ¬(3 ≤ 2) :=
  ⟨rfl, rfl, by omega⟩

/-! ## C2 -/

/-- In preview mode the feature loop stops once the running index reaches
the limit, so it emits at most `limit - i` rows from index `i` on. -/
theorem process_features_from_le (limit : Nat) :
    ∀ (fs : List JVal) (i : Nat) (rows : List JObj),
      process_features_from true limit fs i = .ok rows →
      rows.length ≤ limit - i := by
  intro fs
  induction fs with
  | nil =>
      intro i rows h
      simp only [process_features_from, Except.ok.injEq] at h
      simp [← h]
  | cons f rest ih =>
      intro i rows h
      rw [process_features_from] at h
      split at h
      · rename_i hbrk
        simp only [Except.ok.injEq] at h
        subst h
        simp
      · rename_i hbrk
        have hi : i < limit := by
          by_contra hc
          exact hbrk ⟨rfl, by omega⟩
        split at h
        · simp at h
        · split at h
          · simp at h
          · rename_i rows' hrows'
            simp only [Except.ok.injEq] at h
            subst h
            have := ih (i + 1) rows' hrows'
            simp only [List.length_cons]
            omega

/-- C2 (corrected).  In preview mode with limit L every path returns at most
L rows, but the truncated flag matches the claim only on the JSON and API
paths (`truncated = (sourceRows > L)`).  The CSV path reports truncated on
every preview, and the SQL and GeoJSON paths report truncated exactly when
the returned row count reached L (so a source of exactly L rows is wrongly
flagged as truncated). -/
theorem C2_preview_truncation (α : Type) (src : List α) (L : Nat) :
    ((parse_csv_rows src true L).length ≤ L ∧
      parse_csv_truncated src true L = true) ∧
    ((parse_json_rows src true L).length ≤ L ∧
      (parse_json_truncated src true L = true ↔ src.length > L)) ∧
    ((json_to_polars_via_temp src true L).length ≤ L ∧
      (sql_truncated src true L = true ↔ src.length ≥ L)) ∧
    ((parse_api_rows src true L).length ≤ L ∧
      (parse_api_truncated src true L = true ↔ src.length > L)) ∧
    (∀ (g : JObj) (rows : List JObj),
        process_geojson_features g true L = .ok rows →
        rows.length ≤ L ∧
        (geojson_truncated rows true L = true ↔ rows.length ≥ L)) := by
  refine ⟨⟨?_, ?_⟩, ⟨?_, ?_⟩, ⟨?_, ?_⟩, ⟨?_, ?_⟩, ?_⟩
  · simp [parse_csv_rows]
  · simp [parse_csv_truncated]
  · simp only [parse_json_rows]
    split
    · simp only [List.length_take]; omega
    · rename_i hc; simp only [true_and] at hc; omega
  · simp [parse_json_truncated]
  · simp only [json_to_polars_via_temp]
    split
    · simp only [List.length_take]; omega
    · rename_i hc; simp only [true_and] at hc; omega
  · simp only [sql_truncated, json_to_polars_via_temp, Bool.true_and,
      beq_iff_eq]
    split
    · rename_i hc
      simp only [true_and] at hc
      simp only [List.length_take]
      omega
    · rename_i hc
      simp only [true_and] at hc
      omega
  · simp only [parse_api_rows]
    split
    · simp only [json_to_polars_via_temp]
      split
      · simp only [List.length_take]; omega
      · simp only [List.length_take]; omega
    · rename_i hc
      simp only [true_and] at hc
      simp only [json_to_polars_via_temp]
      split
      · simp only [List.length_take]; omega
      · omega
  · simp [parse_api_truncated]
  · intro g rows h
    rw [process_geojson_features] at h
    split at h
    · simp at h
    · constructor
      · split at h
        · have := process_features_from_le L _ 0 rows h
          omega
        · simp at h
      · simp [geojson_truncated]

/-- Witness for C2 at concrete inputs. -/
theorem C2_preview_truncation_witness :
    (parse_csv_rows [10, 20, 30] true 2).length ≤ 2 ∧
    (parse_json_truncated [10, 20, 30] true 2 = true ↔
      ([10, 20, 30] : List Nat).length > 2) ∧
    (sql_truncated [10, 20, 30] true 2 = true ↔
      ([10, 20, 30] : List Nat).length ≥ 2) ∧
    ([] : List JObj).length ≤ 2 :=
  ⟨(C2_preview_truncation Nat [10, 20, 30] 2).1.1,
   (C2_preview_truncation Nat [10, 20, 30] 2).2.1.2,
   (C2_preview_truncation Nat [10, 20, 30] 2).2.2.1.2,
   ((C2_preview_truncation Nat [10, 20, 30] 2).2.2.2.2 exEmptyCollection [] rfl).1⟩

/-- Counterexample to C2 as stated: the CSV path in preview mode flags a
1-row source as truncated with limit 1000, although 1 > 1000 is false. -/
theorem C2_counterexample :
    parse_csv_truncated [7] true 1000 = true ∧
    ¬(([7] : List Nat).length > 1000) :=
  ⟨rfl, by simp⟩

/-! ## C6 -/

/-- A padded row built over a column list binds every one of its columns. -/
theorem dget_padded_isSome (r : JObj) :
    ∀ (cols : List (List Char)) (k : List Char), k ∈ cols →
      (dget (cols.map fun c => (c, dgetD r c .null)) k).isSome = true := by
  intro cols
  induction cols with
  | nil => intro k hk; simp at hk
  | cons c cs ih =>
      intro k hk
      simp only [List.map_cons, dget]
      split
      · rfl
      · rename_i hne
        rcases List.mem_cons.mp hk with h | h
        · exact absurd h.symm hne
        · exact ih k h

/-- C6 (corrected).  The URL GeoJSON parse and the converter's schema hide
'_'-prefixed columns from the public column list, the column count and the
schema map while `df.to_dicts()` keeps every column (hidden included) in
every returned row; the local-file parse path, however, reports all columns
unfiltered (see the counterexample). -/
theorem C6_hidden_columns (rows : List JObj) :
    (∀ k, k ∈ geojson_public_columns rows → isHiddenKey k = false) ∧
    (∀ k, k ∈ geojson_schema_keys rows → isHiddenKey k = false) ∧
    geojson_public_column_count rows = (geojson_public_columns rows).length ∧
    (∀ r, r ∈ to_dicts (tableColumns rows) rows →
        ∀ k, k ∈ tableColumns rows → (dget r k).isSome = true) ∧
    (∀ k, k ∈ generate_schema_fields (tableColumns rows) →
        isHiddenKey k = false) := by
  refine ⟨?_, ?_, rfl, ?_, ?_⟩
  · intro k hk
    have := (List.mem_filter.mp hk).2
    simpa using this
  · intro k hk
    have := (List.mem_filter.mp hk).2
    simpa using this
  · intro r hr k hk
    rcases List.mem_map.mp hr with ⟨row, _, hrow⟩
    subst hrow
    exact dget_padded_isSome row (tableColumns rows) k hk
  · intro k hk
    have := (List.mem_filter.mp hk).2
    simpa using this

/-- Witness for C6 at the concrete flattened table [exRow]. -/
theorem C6_hidden_columns_witness :
    isHiddenKey featureIdKey = false ∧
    (dget ((tableColumns [exRow]).map fun c => (c, dgetD exRow c .null))
        hiddenGeometryKey).isSome = true :=
  ⟨(C6_hidden_columns [exRow]).1 featureIdKey (by decide),
   (C6_hidden_columns [exRow]).2.2.2.1
     ((tableColumns [exRow]).map fun c => (c, dgetD exRow c .null))
     (List.mem_singleton.mpr rfl) hiddenGeometryKey (by decide)⟩

/-- Counterexample to C6 as stated: the local-file parse metadata for the
flattened table of `exGeoData` lists the hidden column `_geometry` in its
public column list and counts all 8 columns, where the filtered count is 6. -/
theorem C6_counterexample :
    process_geojson_features exGeoData false 1000 = .ok [exRow] ∧
    hiddenGeometryKey ∈ parse_local_columns [exRow] ∧
    isHiddenKey hiddenGeometryKey = true ∧
    parse_local_column_count [exRow] = 8 ∧
    geojson_public_column_count [exRow] = 6 :=
  ⟨rfl, by decide, rfl, rfl, rfl⟩

/-! ## C9 -/

/-- Depth-D truncation cannot tell two D-deep nestings apart. -/
theorem truncateJ_nestArr (x y : JVal) :
    ∀ D : Nat, truncateJ D (nestArr D x) = truncateJ D (nestArr D y) := by
  intro D
  induction D with
  | zero => rfl
  | succ d ih => simp [truncateJ, nestArr, ih]

/-- The coordinate count walks through every nesting level. -/
theorem countRecursive_nestArr (v : JVal) :
    ∀ D : Nat, countRecursive (nestArr D v) = countRecursive v := by
  intro D
  induction D with
  | zero => rfl
  | succ d ih => simp [nestArr, countRecursive, countListRec, ih]

/-- C9 (corrected).  There is no explicit depth guard: for every candidate
depth bound D there are inputs identical up to depth D (a coordinate pair
nested D levels deep versus a non-pair) that the count distinguishes, so the
walk inspects nodes at arbitrary depth; it is nonetheless a total structural
recursion. -/
theorem C9_no_depth_guard (D : Nat) :
    truncateJ D (nestArr D (.arr [.num 1, .num 2]))
      = truncateJ D (nestArr D (.arr [.num 3])) ∧
    countRecursive (nestArr D (.arr [.num 1, .num 2])) = 1 ∧
    countRecursive (nestArr D (.arr [.num 3])) = 0 := by
  refine ⟨truncateJ_nestArr _ _ D, ?_, ?_⟩
  · rw [countRecursive_nestArr]
    rfl
  · rw [countRecursive_nestArr]
    rfl

/-- Counterexample to C9 as stated: no fixed depth bound D exists beyond
which the walk stops recursing — formally, the count is not a function of
the tree truncated at any fixed depth. -/
theorem C9_counterexample :
    ¬ ∃ D : Nat, ∀ v w : JVal,
        truncateJ D v = truncateJ D w → countRecursive v = countRecursive w := by
  rintro ⟨D, hD⟩
  have h := hD (nestArr D (.arr [.num 1, .num 2])) (nestArr D (.arr [.num 3]))
    (truncateJ_nestArr _ _ D)
  rw [countRecursive_nestArr, countRecursive_nestArr] at h
  simp [countRecursive, countListRec, pyNumeric] at h

/-! ## Helper lemmas: Python dict assignment -/

/-- Looking up the just-assigned key yields the assigned value. -/
theorem dget_dinsert_self (d : JObj) (k : List Char) (v : JVal) :
    dget (dinsert d k v) k = some v := by
  induction d with
  | nil => simp [dinsert, dget]
  | cons kv rest ih =>
      obtain ⟨k', w⟩ := kv
      simp only [dinsert]
      split
      · rename_i he
        simp [dget, he]
      · rename_i hne
        simp [dget, hne, ih]

/-- Assignment under one key leaves the others untouched. -/
theorem dget_dinsert_ne (d : JObj) (k k' : List Char) (v : JVal)
    (h : k' ≠ k) : dget (dinsert d k v) k' = dget d k' := by
  induction d with
  | nil => simp [dinsert, dget, Ne.symm h]
  | cons kv rest ih =>
      obtain ⟨k₀, w⟩ := kv
      simp only [dinsert]
      split
      · rename_i he
        subst he
        simp [dget, Ne.symm h]
      · simp only [dget]
        split
        · rfl
        · exact ih

/-- A successful lookup means the key is among the dict's keys. -/
theorem dget_some_mem (k : List Char) (w : JVal) :
    ∀ d : JObj, dget d k = some w → k ∈ d.map Prod.fst := by
  intro d
  induction d with
  | nil => intro h; simp [dget] at h
  | cons kv rest ih =>
      obtain ⟨k₀, w₀⟩ := kv
      intro h
      simp only [dget] at h
      split at h
      · rename_i he
        subst he
        exact List.mem_cons_self _ _
      · exact List.mem_cons_of_mem _ (ih h)

/-- Merging a dict whose keys avoid `k` does not change the entry at `k`. -/
theorem dget_dmerge_notin :
    ∀ (props d : JObj) (k : List Char), dget props k = none →
      dget (dmerge d props) k = dget d k := by
  intro props
  induction props with
  | nil => intro d k _; rfl
  | cons kv rest ih =>
      obtain ⟨k₀, v₀⟩ := kv
      intro d k h
      simp only [dget] at h
      split at h
      · simp at h
      · rename_i hne
        rw [show dmerge d ((k₀, v₀) :: rest) = dmerge (dinsert d k₀ v₀) rest
              from rfl]
        exact (ih (dinsert d k₀ v₀) k h).trans
          (dget_dinsert_ne d k₀ k v₀ (Ne.symm hne))

/-- Merging a duplicate-free dict installs each of its bindings. -/
theorem dget_dmerge_mem :
    ∀ (props d : JObj) (k : List Char) (v : JVal),
      (props.map Prod.fst).Nodup → dget props k = some v →
      dget (dmerge d props) k = some v := by
  intro props
  induction props with
  | nil => intro d k v _ h; simp [dget] at h
  | cons kv rest ih =>
      obtain ⟨k₀, v₀⟩ := kv
      intro d k v hnd h
      have hnd' := List.nodup_cons.mp (hnd : (k₀ :: rest.map Prod.fst).Nodup)
      rw [show dmerge d ((k₀, v₀) :: rest) = dmerge (dinsert d k₀ v₀) rest
            from rfl]
      simp only [dget] at h
      split at h
      · rename_i he
        simp only [Option.some.injEq] at h
        subst h
        have hk : dget rest k = none := by
          cases hdr : dget rest k with
          | none => rfl
          | some w =>
              exact absurd (he ▸ dget_some_mem k w rest hdr) hnd'.1
        rw [dget_dmerge_notin rest (dinsert d k₀ v₀) k hk, he,
          dget_dinsert_self]
      · exact ih (dinsert d k₀ v₀) k v hnd'.2 h

/-! ## C8 -/

/-- C8 (corrected).  `**properties` is expanded after the four computed
entries feature_id, name, geometry_type and area_type — a property overrides
those — but coordinate_count, has_interior_rings and the two hidden columns
are assigned after the expansion, so for those keys the computed value
overrides the property, contrary to the claim. -/
theorem C8_property_override (i : Nat) (props geometry row : JObj)
    (hnd : (props.map Prod.fst).Nodup)
    (h : build_row i props geometry = .ok row) :
    (∀ k v, dget props k = some v →
        k ∉ [coordinateCountKey, hasInteriorRingsKey, hiddenGeometryKey,
             featureIndexKey] →
        dget row k = some v) ∧
    dget row coordinateCountKey
      = some (.num (Int.ofNat (count_coordinates geometry))) ∧
    (∀ b, has_interior_rings geometry = .ok b →
        dget row hasInteriorRingsKey = some (.bool b)) ∧
    dget row hiddenGeometryKey = some (.obj geometry) ∧
    dget row featureIndexKey = some (.num (Int.ofNat i)) := by
  rw [build_row] at h
  split at h
  · simp at h
  · rename_i hir hhir
    simp only [Except.ok.injEq] at h
    subst h
    refine ⟨?_, ?_, ?_, ?_, ?_⟩
    · intro k v hv hk
      simp only [List.mem_cons, not_or] at hk
      obtain ⟨h1, h2, h3, h4, -⟩ := hk
      rw [dget_dinsert_ne _ _ _ _ h4, dget_dinsert_ne _ _ _ _ h3,
        dget_dinsert_ne _ _ _ _ h2, dget_dinsert_ne _ _ _ _ h1]
      exact dget_dmerge_mem props _ k v hnd hv
    · rw [dget_dinsert_ne _ _ _ _ (by decide), dget_dinsert_ne _ _ _ _ (by decide),
        dget_dinsert_ne _ _ _ _ (by decide), dget_dinsert_self]
    · intro b hb
      rw [hhir] at hb
      simp only [Except.ok.injEq] at hb
      subst hb
      rw [dget_dinsert_ne _ _ _ _ (by decide), dget_dinsert_ne _ _ _ _ (by decide),
        dget_dinsert_self]
    · rw [dget_dinsert_ne _ _ _ _ (by decide), dget_dinsert_self]
    · rw [dget_dinsert_self]

/-- Witness for C8 at concrete inputs. -/
theorem C8_property_override_witness :
    dget exRowName nameKey = some (.str "X".toList) ∧
    dget exRowName coordinateCountKey = some (.num 1) :=
  ⟨(C8_property_override 0 exPropsName exGeometry exRowName (by decide) rfl).1
      nameKey (.str "X".toList) rfl (by decide),
   (C8_property_override 0 exPropsName exGeometry exRowName (by decide) rfl).2.1⟩

/-- Counterexample to C8 as stated: a feature property named
coordinate_count (value 99) does not override the computed default; the
emitted row carries the computed count 1. -/
theorem C8_counterexample :
    dget [(coordinateCountKey, JVal.num 99)] coordinateCountKey
      = some (.num 99) ∧
    (build_row 0 [(coordinateCountKey, .num 99)] exGeometry).map
        (fun r => dget r coordinateCountKey) = .ok (some (.num 1)) ∧
    (JVal.num 1) ≠ .num 99 :=
  ⟨rfl, rfl, by simp⟩

/-! ## C4 -/

/-- Each emitted row at output offset j is the flattening, at running index
`i + j`, of the input feature at offset j. -/
theorem process_features_from_get (preview : Bool) (limit : Nat) :
    ∀ (fs : List JVal) (i : Nat) (rows : List JObj),
      process_features_from preview limit fs i = .ok rows →
      ∀ j r, rows.get? j = some r →
        ∃ f, fs.get? j = some f ∧ row_of_feature (i + j) f = .ok r := by
  intro fs
  induction fs with
  | nil =>
      intro i rows h j r hj
      simp only [process_features_from, Except.ok.injEq] at h
      rw [← h] at hj
      simp at hj
  | cons f rest ih =>
      intro i rows h j r hj
      rw [process_features_from] at h
      split at h
      · simp only [Except.ok.injEq] at h
        rw [← h] at hj
        simp at hj
      · split at h
        · simp at h
        · rename_i row hrow
          split at h
          · simp at h
          · rename_i rows' hrows'
            simp only [Except.ok.injEq] at h
            subst h
            match j with
            | 0 =>
                simp only [List.get?] at hj
                simp only [Option.some.injEq] at hj
                subst hj
                exact ⟨f, rfl, by simpa using hrow⟩
            | Nat.succ j' =>
                simp only [List.get?] at hj
                obtain ⟨f', hf', hr'⟩ := ih (i + 1) rows' hrows' j' r hj
                refine ⟨f', by simpa using hf', ?_⟩
                have : i + (j' + 1) = i + 1 + j' := by omega
                rw [this]
                exact hr'

/-- C4 (corrected).  Flattening a dict without top-level
type == "FeatureCollection" fails with InvalidGeoJSON, and the row emitted
at output index j is the flattening of the input feature at the same index,
whose feature_id entry is j+1 whenever the feature's properties do not carry
a feature_id key themselves; a feature_id property overrides the computed
sequential value (see the counterexample). -/
theorem C4_geojson_flattening :
    (∀ (g : JObj) (preview : Bool) (limit : Nat),
        isStr (dgetD g typeKey .null) featureCollectionStr = false →
        process_geojson_features g preview limit = .error .invalidGeoJSON) ∧
    (∀ (g : JObj) (preview : Bool) (limit : Nat) (rows : List JObj)
        (features : List JVal),
        process_geojson_features g preview limit = .ok rows →
        dgetD g featuresKey (.arr []) = .arr features →
        ∀ j r, rows.get? j = some r →
          ∃ f, features.get? j = some f ∧ row_of_feature j f = .ok r) ∧
    (∀ (i : Nat) (props geometry row : JObj),
        build_row i props geometry = .ok row →
        dget props featureIdKey = none →
        dget row featureIdKey = some (.num (Int.ofNat (i + 1)))) := by
  refine ⟨?_, ?_, ?_⟩
  · intro g preview limit h
    simp [process_geojson_features, h]
  · intro g preview limit rows features h hf j r hj
    rw [process_geojson_features] at h
    split at h
    · simp at h
    · rw [hf] at h
      have := process_features_from_get preview limit features 0 rows h j r hj
      simpa using this
  · intro i props geometry row h hp
    rw [build_row] at h
    split at h
    · simp at h
    · simp only [Except.ok.injEq] at h
      subst h
      rw [dget_dinsert_ne _ _ _ _ (by decide), dget_dinsert_ne _ _ _ _ (by decide),
        dget_dinsert_ne _ _ _ _ (by decide), dget_dinsert_ne _ _ _ _ (by decide),
        dget_dmerge_notin props _ featureIdKey hp]
      simp [dget]

/-- Witness for C4 at concrete inputs. -/
theorem C4_geojson_flattening_witness :
    process_geojson_features [] true 5 = .error .invalidGeoJSON ∧
    dget exRowName featureIdKey = some (.num 1) ∧
    (∃ f, ([exFeature] : List JVal).get? 0 = some f ∧
        row_of_feature 0 f = .ok exRow) :=
  ⟨C4_geojson_flattening.1 [] true 5 rfl,
   C4_geojson_flattening.2.2 0 exPropsName exGeometry exRowName rfl rfl,
   C4_geojson_flattening.2.1 exGeoData false 1000 [exRow] [exFeature]
     rfl rfl 0 exRow rfl⟩

/-- Counterexample to C4 as stated: the feature at input index 0 of
`exGeoData` carries a feature_id property of 99, and the emitted row's
feature_id is 99, not the sequential 0+1. -/
theorem C4_counterexample :
    (process_geojson_features exGeoData false 1000).map
        (List.map fun r => dget r featureIdKey) = .ok [some (.num 99)] ∧
    (JVal.num 99) ≠ .num (Int.ofNat (0 + 1)) :=
  ⟨rfl, by simp⟩

/-! ## C7 -/

mutual
/-- The code's count agrees everywhere with the amended pair count (numbers
or booleans). -/
theorem countRecursive_eq_amended : ∀ v : JVal, countRecursive v = amendedPairCount v
  | .null => rfl
  | .bool _ => rfl
  | .num _ => rfl
  | .str _ => rfl
  | .obj _ => rfl
  | .arr coords => by
      rw [countRecursive, amendedPairCount,
        show pyNumeric = isNumberOrBool from funext fun v => by cases v <;> rfl,
        countListRec_eq_amended coords]
termination_by structural v => v
/-- List version of `countRecursive_eq_amended`. -/
theorem countListRec_eq_amended : ∀ xs : List JVal, countListRec xs = amendedListCount xs
  | [] => rfl
  | x :: xs => by
      rw [countListRec, amendedListCount, countRecursive_eq_amended x,
        countListRec_eq_amended xs]
termination_by structural xs => xs
end

/-- C7 (corrected).  coordinate_count equals the recursive count in which a
list of exactly two numbers or booleans counts as one pair (Python's
isinstance check accepts booleans as ints); in particular a geometry whose
coordinates entry is a two-number position has coordinate_count 1. -/
theorem C7_coordinate_pairs :
    (∀ v : JVal, countRecursive v = amendedPairCount v) ∧
    (∀ (g : JObj) (x y : Int),
        dget g coordinatesKey = some (.arr [.num x, .num y]) →
        count_coordinates g = 1) := by
  refine ⟨countRecursive_eq_amended, ?_⟩
  intro g x y h
  simp [count_coordinates, h, countRecursive, pyNumeric]

/-- Witness for C7 at concrete inputs. -/
theorem C7_coordinate_pairs_witness :
    countRecursive (.arr [.bool true, .bool false])
      = amendedPairCount (.arr [.bool true, .bool false]) ∧
    count_coordinates exGeometry = 1 :=
  ⟨C7_coordinate_pairs.1 _, C7_coordinate_pairs.2 exGeometry 1 2 rfl⟩

/-- Counterexample to C7 as stated: a coordinates entry of two booleans is
counted as one pair by the code, while the claim's counting rule (two
numbers) yields zero. -/
theorem C7_counterexample :
    count_coordinates [(coordinatesKey, .arr [.bool true, .bool false])] = 1 ∧
    claimPairCount (.arr [.bool true, .bool false]) = 0 ∧ (1 : Nat) ≠ 0 :=
  ⟨rfl, rfl, by omega⟩

/-! ## Helper lemmas: substrings and occurrence counting -/

/-- `containsSub` is substring occurrence. -/
theorem containsSub_iff (pat : List Char) :
    ∀ s : List Char, containsSub s pat = true ↔ ∃ a b, s = a ++ pat ++ b := by
  intro s
  induction s with
  | nil =>
      simp only [containsSub, List.isEmpty_iff]
      constructor
      · rintro rfl
        exact ⟨[], [], rfl⟩
      · rintro ⟨a, b, hab⟩
        rcases List.append_eq_nil.mp ((List.append_eq_nil.mp hab.symm).1) with ⟨-, h⟩
        exact h
  | cons c rest ih =>
      simp only [containsSub, Bool.or_eq_true, List.isPrefixOf_iff_prefix, ih]
      constructor
      · rintro (⟨t, ht⟩ | ⟨a, b, hab⟩)
        · exact ⟨[], t, by simp [← ht]⟩
        · exact ⟨c :: a, b, by simp [hab]⟩
      · rintro ⟨a, b, hab⟩
        cases a with
        | nil =>
            left
            exact ⟨b, by simpa using hab.symm⟩
        | cons a₀ a' =>
            right
            simp only [List.cons_append, List.cons.injEq] at hab
            exact ⟨a', b, hab.2⟩

/-- A pattern occurring in a list occurs in any right-extension of it. -/
theorem containsSub_append_of_left (A C pat : List Char)
    (h : containsSub A pat = true) : containsSub (A ++ C) pat = true := by
  rw [containsSub_iff] at h ⊢
  obtain ⟨a, b, hab⟩ := h
  exact ⟨a, b ++ C, by simp [hab]⟩

/-- Occurrences are stable under reversing both the text and the pattern. -/
theorem containsSub_reverse (s pat : List Char) :
    containsSub s.reverse pat.reverse = containsSub s pat := by
  have hiff : containsSub s.reverse pat.reverse = true ↔
      containsSub s pat = true := by
    rw [containsSub_iff, containsSub_iff]
    constructor
    · rintro ⟨a, b, hab⟩
      refine ⟨b.reverse, a.reverse, ?_⟩
      have h := congrArg List.reverse hab
      simpa [List.reverse_append, List.append_assoc] using h
    · rintro ⟨a, b, hab⟩
      refine ⟨b.reverse, a.reverse, ?_⟩
      have h := congrArg List.reverse hab
      simpa [List.reverse_append, List.append_assoc] using h
  cases h1 : containsSub s.reverse pat.reverse <;>
    cases h2 : containsSub s pat <;> simp_all

/-- A text without the pattern has zero occurrences. -/
theorem countOcc_eq_zero (pat : List Char) :
    ∀ s : List Char, containsSub s pat = false → countOcc pat s = 0 := by
  intro s
  induction s with
  | nil =>
      intro h
      simp only [containsSub] at h
      simp [countOcc, h]
  | cons c rest ih =>
      intro h
      simp only [containsSub, Bool.or_eq_false_iff] at h
      simp [countOcc, h.1, ih h.2]

/-- "limit" cannot occur in a text avoiding the character 'l'. -/
theorem containsSub_false_no_l :
    ∀ B : List Char, 'l' ∉ B → containsSub B limitTok = false := by
  intro B
  induction B with
  | nil => intro _; rfl
  | cons b B' ih =>
      intro h
      have hb : ('l' : Char) ≠ b := fun he => h (he ▸ List.mem_cons_self b B')
      simp only [containsSub, Bool.or_eq_false_iff]
      constructor
      · simp [limitTok, List.isPrefixOf, hb]
      · exact ih fun hm => h (List.mem_cons_of_mem _ hm)

/-- A proper nonempty suffix of "limit" cannot be a prefix of text starting
with a space: its head is one of i, m, t. -/
theorem straddle_suffix (q B : List Char)
    (hq : ∃ p, p ++ q = limitTok ∧ p ≠ []) (hne : q ≠ []) :
    q.isPrefixOf (' ' :: B) = false := by
  obtain ⟨p, hpq, hp⟩ := hq
  cases p with
  | nil => exact absurd rfl hp
  | cons p₀ p' =>
      simp only [limitTok, List.cons_append, List.cons.injEq] at hpq
      have hsuf : q <:+ ['i', 'm', 'i', 't'] := ⟨p', hpq.2⟩
      cases q with
      | nil => exact absurd rfl hne
      | cons q₀ q' =>
          have hmem : q₀ ∈ (['i', 'm', 'i', 't'] : List Char) :=
            hsuf.subset (List.mem_cons_self _ _)
          simp only [List.mem_cons, List.not_mem_nil, or_false] at hmem
          rcases hmem with rfl | rfl | rfl | rfl <;> simp [List.isPrefixOf]

/-- A prefix of an append either lies in the left part or extends it. -/
theorem prefix_split {α : Type} (pat X t : List α) (h : pat <+: X ++ t) :
    pat <+: X ∨ ∃ q, pat = X ++ q ∧ q ≠ [] ∧ q <+: t := by
  obtain ⟨r, hr⟩ := h
  rcases List.append_eq_append_iff.mp hr with ⟨a', h1, _⟩ | ⟨c', h1, h2⟩
  · exact Or.inl ⟨a', h1.symm⟩
  · cases hc : c' with
    | nil =>
        subst hc
        exact Or.inl ⟨[], by simp [h1]⟩
    | cons c₀ cs =>
        subst hc
        exact Or.inr ⟨c₀ :: cs, h1, by simp, ⟨r, h2.symm⟩⟩

/-- Occurrences of "limit" in a text followed by a space-led tail are
exactly the occurrences in the tail, provided the text itself is clean:
no occurrence can straddle the boundary because the tail starts with a
space and every proper suffix of "limit" starts with a letter. -/
theorem countOcc_append_space :
    ∀ A B : List Char, containsSub A limitTok = false →
      countOcc limitTok (A ++ ' ' :: B) = countOcc limitTok (' ' :: B) := by
  intro A
  induction A with
  | nil => intro B _; rfl
  | cons c A' ih =>
      intro B hA
      simp only [containsSub, Bool.or_eq_false_iff] at hA
      have hpf : limitTok.isPrefixOf (c :: (A' ++ ' ' :: B)) = false := by
        cases hp : limitTok.isPrefixOf (c :: (A' ++ ' ' :: B))
        · rfl
        · exfalso
          rw [List.isPrefixOf_iff_prefix] at hp
          have hp' : limitTok <+: (c :: A') ++ ' ' :: B := by simpa using hp
          rcases prefix_split limitTok (c :: A') (' ' :: B) hp' with h | ⟨q, hq, hqne, hqpre⟩
          · rw [← List.isPrefixOf_iff_prefix] at h
            rw [h] at hA
            simp at hA
          · have := straddle_suffix q B ⟨c :: A', hq.symm, by simp⟩ hqne
            rw [← List.isPrefixOf_iff_prefix] at hqpre
            rw [hqpre] at this
            simp at this
      have step : countOcc limitTok ((c :: A') ++ ' ' :: B)
          = (if limitTok.isPrefixOf (c :: (A' ++ ' ' :: B)) = true then 1 else 0)
            + countOcc limitTok (A' ++ ' ' :: B) := rfl
      rw [step, hpf, ih B hA.2]
      simp

/-- Counting "limit" in the lowered appended clause: exactly one occurrence,
at the literal "limit" itself, provided the trailing part avoids 'l'. -/
theorem countOcc_tail (B : List Char) (hB : 'l' ∉ B) :
    countOcc limitTok (' ' :: 'l' :: 'i' :: 'm' :: 'i' :: 't' :: B) = 1 := by
  have h0 : countOcc (['l', 'i', 'm', 'i', 't'] : List Char) B = 0 :=
    countOcc_eq_zero limitTok B (containsSub_false_no_l B hB)
  simp [countOcc, limitTok, List.isPrefixOf, h0]

/-! ## Helper lemmas: strip, lower and digits -/

/-- The concrete whitespace characters recognized by `str.strip()`. -/
theorem pySpace_cases (c : Char) (h : isPySpace c = true) :
    c = ' ' ∨ c = '\t' ∨ c = '\n' ∨ c = '\x0d' ∨ c = '\x0b' ∨ c = '\x0c' := by
  simp only [isPySpace, Bool.or_eq_true, decide_eq_true_eq] at h
  tauto

/-- Dropping leading whitespace does not change whether a pattern whose head
is not a lowered whitespace character occurs in the lowered text. -/
theorem containsSub_lower_dropWhile (pat : List Char) (h₀ : Char)
    (hpat : pat.head? = some h₀)
    (hh : ∀ c, isPySpace c = true → Char.toLower c ≠ h₀) :
    ∀ s : List Char,
      containsSub (lowerStr (s.dropWhile isPySpace)) pat
        = containsSub (lowerStr s) pat := by
  intro s
  induction s with
  | nil => rfl
  | cons c rest ih =>
      by_cases hc : isPySpace c = true
      · rw [List.dropWhile_cons, if_pos hc, ih]
        have hfalse : pat.isPrefixOf (Char.toLower c :: lowerStr rest) = false := by
          cases pat with
          | nil => simp at hpat
          | cons p ps =>
              simp only [List.head?, Option.some.injEq] at hpat
              have hne : p ≠ Char.toLower c := fun he => hh c hc (he ▸ hpat)
              simp [List.isPrefixOf, hne]
        rw [show containsSub (lowerStr (c :: rest)) pat
              = (pat.isPrefixOf (Char.toLower c :: lowerStr rest)
                 || containsSub (lowerStr rest) pat) from rfl, hfalse]
        simp
      · rw [List.dropWhile_cons, if_neg hc]

/-- Lowering commutes with reversal. -/
theorem lowerStr_reverse (s : List Char) :
    lowerStr s.reverse = (lowerStr s).reverse := by
  simp [lowerStr]

/-- The guard of `_add_limit_to_query` tests the stripped, lowered query, but
stripping cannot create or destroy an occurrence of "limit": the test agrees
with testing the lowered query itself. -/
theorem containsLimit_strip (q : List Char) :
    containsSub (lowerStr (pyStrip q)) limitTok
      = containsSub (lowerStr q) limitTok := by
  have hl : ∀ c, isPySpace c = true → Char.toLower c ≠ 'l' := by
    intro c hc
    rcases pySpace_cases c hc with rfl | rfl | rfl | rfl | rfl | rfl <;> decide
  have ht : ∀ c, isPySpace c = true → Char.toLower c ≠ 't' := by
    intro c hc
    rcases pySpace_cases c hc with rfl | rfl | rfl | rfl | rfl | rfl <;> decide
  rw [pyStrip]
  calc containsSub
        (lowerStr (((q.dropWhile isPySpace).reverse.dropWhile isPySpace).reverse))
        limitTok
      = containsSub
          ((lowerStr ((q.dropWhile isPySpace).reverse.dropWhile isPySpace)).reverse)
          (limitTok.reverse.reverse) := by
        rw [lowerStr_reverse, List.reverse_reverse]
    _ = containsSub
          (lowerStr ((q.dropWhile isPySpace).reverse.dropWhile isPySpace))
          limitTok.reverse := containsSub_reverse _ _
    _ = containsSub (lowerStr ((q.dropWhile isPySpace).reverse))
          limitTok.reverse :=
        containsSub_lower_dropWhile limitTok.reverse 't' rfl ht _
    _ = containsSub ((lowerStr (q.dropWhile isPySpace)).reverse)
          limitTok.reverse := by
        rw [lowerStr_reverse]
    _ = containsSub (lowerStr (q.dropWhile isPySpace)) limitTok :=
        containsSub_reverse _ _
    _ = containsSub (lowerStr q) limitTok :=
        containsSub_lower_dropWhile limitTok 'l' rfl hl q

/-- Lowering a digit character is the identity. -/
theorem toLower_digitChar (d : Nat) :
    Char.toLower (digitChar d) = digitChar d := by
  rcases d with _ | _ | _ | _ | _ | _ | _ | _ | _ | d <;> rfl

/-- No digit character is the letter 'l'. -/
theorem digitChar_ne_l (d : Nat) : digitChar d ≠ 'l' := by
  rcases d with _ | _ | _ | _ | _ | _ | _ | _ | _ | d <;>
    first
    | decide
    | exact (by decide : ('9' : Char) ≠ 'l')

/-- Every character of a rendered number is a digit character. -/
theorem mem_natDigits (n : Nat) : ∀ c ∈ natDigits n, ∃ d, c = digitChar d := by
  induction n using Nat.strong_induction_on with
  | _ n ih =>
      rw [natDigits]
      split
      · intro c hc
        simp only [List.mem_singleton] at hc
        exact ⟨n, hc⟩
      · rename_i hn
        intro c hc
        rcases List.mem_append.mp hc with h | h
        · exact ih (n / 10) (Nat.div_lt_self (by omega) (by omega)) c h
        · simp only [List.mem_singleton] at h
          exact ⟨n % 10, h⟩

/-- Lowering fixes any text whose characters are fixed by lowering. -/
theorem lowerStr_fixed :
    ∀ s : List Char, (∀ c ∈ s, Char.toLower c = c) → lowerStr s = s := by
  intro s
  induction s with
  | nil => intro _; rfl
  | cons c cs ih =>
      intro h
      simp only [lowerStr, List.map_cons]
      rw [h c (List.mem_cons_self _ _),
        show List.map Char.toLower cs = lowerStr cs from rfl,
        ih fun x hx => h x (List.mem_cons_of_mem _ hx)]

/-- A rendered number is unchanged by lowering. -/
theorem lowerStr_natDigits (n : Nat) :
    lowerStr (natDigits n) = natDigits n :=
  lowerStr_fixed _ fun c hc => by
    obtain ⟨d, rfl⟩ := mem_natDigits n c hc
    exact toLower_digitChar d

/-- A rendered number avoids the letter 'l'. -/
theorem natDigits_no_l (n : Nat) : 'l' ∉ natDigits n := fun h => by
  obtain ⟨d, hd⟩ := mem_natDigits n 'l' h
  exact digitChar_ne_l d hd.symm

/-- The lowered rewritten query contains exactly one occurrence of "limit":
the one in the appended clause. -/
theorem countOcc_appended (body digits t' : List Char)
    (hbody : containsSub (lowerStr body) limitTok = false)
    (hdig : 'l' ∉ lowerStr digits) (ht : 'l' ∉ lowerStr t') :
    countOcc limitTok (lowerStr (body ++ " LIMIT ".toList ++ digits ++ t')) = 1 := by
  have hmapL : List.map Char.toLower (" LIMIT ".toList)
      = [' ', 'l', 'i', 'm', 'i', 't', ' '] := rfl
  have hmap : lowerStr (body ++ " LIMIT ".toList ++ digits ++ t')
      = lowerStr body
        ++ ' ' :: 'l' :: 'i' :: 'm' :: 'i' :: 't'
          :: (' ' :: (lowerStr digits ++ lowerStr t')) := by
    simp only [lowerStr, List.map_append, hmapL, List.append_assoc,
      List.cons_append, List.nil_append]
  have hB : 'l' ∉ (' ' :: (lowerStr digits ++ lowerStr t')) := by
    simp [List.mem_cons, List.mem_append, hdig, ht]
  rw [hmap, countOcc_append_space _ _ hbody, countOcc_tail _ hB]

/-! ## C3 -/

/-- C3 (confirmed).  A query containing "limit" case-insensitively is
returned verbatim; otherwise the rewritten query is the stripped query with
exactly one appended `LIMIT {n}` clause carrying the requested bound —
placed before the trailing semicolon of the stripped query when one exists
and at the end otherwise — and its lowered text contains exactly one
occurrence of "limit". -/
theorem C3_add_limit_to_query (query : List Char) (limit : Nat) :
    (containsSub (lowerStr query) limitTok = true →
      add_limit_to_query query limit = query) ∧
    (containsSub (lowerStr query) limitTok = false →
      countOcc limitTok (lowerStr (add_limit_to_query query limit)) = 1 ∧
      ((pyStrip query).getLast? = some ';' →
        add_limit_to_query query limit
          = (pyStrip query).dropLast ++ " LIMIT ".toList
            ++ natDigits limit ++ [';']) ∧
      ((pyStrip query).getLast? ≠ some ';' →
        add_limit_to_query query limit
          = pyStrip query ++ " LIMIT ".toList ++ natDigits limit)) := by
  constructor
  · intro h
    rw [add_limit_to_query,
      if_pos (show containsSub (lowerStr (pyStrip query)) limitTok = true by
        rw [containsLimit_strip]; exact h)]
  · intro h
    have hg : containsSub (lowerStr (pyStrip query)) limitTok = false := by
      rw [containsLimit_strip]; exact h
    have hgneg : ¬ containsSub (lowerStr (pyStrip query)) limitTok = true := by
      simp [hg]
    refine ⟨?_, ?_, ?_⟩
    · rw [add_limit_to_query, if_neg hgneg]
      by_cases hsemi : (pyStrip query).getLast? = some ';'
      · rw [if_pos hsemi]
        have hsplit : (pyStrip query).dropLast ++ [';'] = pyStrip query :=
          List.dropLast_append_getLast? ';' hsemi
        have hbody : containsSub (lowerStr ((pyStrip query).dropLast))
            limitTok = false := by
          cases hcb : containsSub (lowerStr ((pyStrip query).dropLast)) limitTok
          · rfl
          · exfalso
            have h1 := containsSub_append_of_left
              (lowerStr ((pyStrip query).dropLast)) (lowerStr [';']) limitTok hcb
            have h2 : lowerStr ((pyStrip query).dropLast) ++ lowerStr [';']
                = lowerStr (pyStrip query) := by
              rw [show lowerStr ((pyStrip query).dropLast) ++ lowerStr [';']
                    = lowerStr ((pyStrip query).dropLast ++ [';'])
                  from (List.map_append _ _ _).symm, hsplit]
            rw [h2] at h1
            rw [hg] at h1
            simp at h1
        exact countOcc_appended ((pyStrip query).dropLast) (natDigits limit)
          [';'] hbody
          (by rw [lowerStr_natDigits]; exact natDigits_no_l limit)
          (by decide)
      · rw [if_neg hsemi]
        have := countOcc_appended (pyStrip query) (natDigits limit) [] hg
          (by rw [lowerStr_natDigits]; exact natDigits_no_l limit)
          (by decide)
        simpa using this
    · intro hsemi
      rw [add_limit_to_query, if_neg hgneg, if_pos hsemi]
    · intro hsemi
      rw [add_limit_to_query, if_neg hgneg, if_neg hsemi]

/-- Witness for C3 at concrete inputs. -/
theorem C3_add_limit_to_query_witness :
    add_limit_to_query "select x from t limit 5".toList 7
      = "select x from t limit 5".toList ∧
    countOcc limitTok (lowerStr (add_limit_to_query "select 1".toList 7)) = 1 ∧
    add_limit_to_query "select 1;".toList 7
      = (pyStrip "select 1;".toList).dropLast ++ " LIMIT ".toList
        ++ natDigits 7 ++ [';'] ∧
    add_limit_to_query "select 2".toList 7
      = pyStrip "select 2".toList ++ " LIMIT ".toList ++ natDigits 7 :=
  ⟨(C3_add_limit_to_query "select x from t limit 5".toList 7).1 (by rfl),
   ((C3_add_limit_to_query "select 1".toList 7).2 (by rfl)).1,
   ((C3_add_limit_to_query "select 1;".toList 7).2 (by rfl)).2.1 (by rfl),
   ((C3_add_limit_to_query "select 2".toList 7).2 (by rfl)).2.2 (by decide)⟩

end Tundra
